import Mathlib

/-!
Verification development for the mochi Lua-runtime core.

The definitions below are a shallow embedding of the interpreter core:

* `src/runtime/ops.rs` — integer division / modulo / shift primitives and the
  generic arithmetic, bitwise and comparison helpers of the dispatch loop;
* `src/vm.rs` — the value-stack / frame model, the `Return`, `Closure` and
  `execute` entry-point semantics, and the opcode dispatch (including the
  arms that are `unimplemented!` in the source);
* `src/types/closure.rs` — prototypes, closures, upvalue cells and
  upvalue descriptors.

Machine integers (`i64`) are embedded as `Int` together with explicit range
hypotheses and an explicit two's-complement wrap `wrap64` at the points where
the source performs wrapping operations.  `f64` values are embedded as an
exact carrier (`FloatV`): NaN, the two infinities and exact finite values;
ordering, `ceil`, `floor` and negation on this carrier are exact and agree
with IEEE semantics on the represented values, while rounding arithmetic
(add/sub/mul/div/pow) is kept abstract as a parameter (`FloatSem`).

Parts of the repository that the claims depend on but whose source is not in
the snapshot (the `Value` coercion helpers, `number_is_valid_integer`, and
byte-string ordering) are modelled from the specification; each such
definition carries a doc comment starting with `Modelled from the spec:`.
Rust panics (`unimplemented!`, `todo!`, `assert!`, `unwrap`) are modelled as
a distinguished failure outcome (`none` for the pure primitives, the
`panicked` constructor of `StepResult` for the dispatch loop).
-/

namespace Mochi

/-! ### Machine-integer model -/

/-- Smallest `i64` value, `-2^63`. -/
def i64Min : Int := -(2 ^ 63)

/-- Largest `i64` value, `2^63 - 1`. -/
def i64Max : Int := 2 ^ 63 - 1

/-- Two's-complement wrap of an integer into the `i64` range. -/
def wrap64 (x : Int) : Int := (x + 2 ^ 63) % 2 ^ 64 - 2 ^ 63

/-- Rust `i64::wrapping_neg`. -/
def wrappingNeg (x : Int) : Int := wrap64 (-x)

/-- Reinterpretation of an `i64` value as a `u64` (`x as u64`). -/
def toU64 (x : Int) : Int := x % 2 ^ 64

/-- `idivi` from `src/runtime/ops.rs`: Lua integer division of `i64` values.
Divisor `0` hits `todo!("attempt to divide by zero")`, modelled as `none`;
divisor `-1` returns `wrapping_neg`; otherwise the truncated quotient `m / n`
(Rust `/` on `i64`, embedded as `Int.tdiv`) is decremented by one when
`m ^ n < 0` (the sign bits differ) and `m % n != 0`. -/
def idivi (m n : Int) : Option Int :=
  if n = 0 then none
  else if n = -1 then some (wrappingNeg m)
  else
    let q := m.tdiv n
    some (if ¬(m < 0 ↔ n < 0) ∧ m.tmod n ≠ 0 then q - 1 else q)

/-- `modi` from `src/runtime/ops.rs`: Lua integer modulo of `i64` values.
Divisor `0` hits `todo!`, modelled as `none`; divisor `-1` returns `0`;
otherwise the truncated remainder `m % n` (Rust `%`, embedded as `Int.tmod`)
is incremented by `n` when it is nonzero and `r ^ n < 0`. -/
def modi (m n : Int) : Option Int :=
  if n = 0 then none
  else if n = -1 then some 0
  else
    let r := m.tmod n
    some (if r ≠ 0 ∧ ¬(r < 0 ↔ n < 0) then r + n else r)

/-- `shl` from `src/runtime/ops.rs`: Lua shift-left of `i64` values.
`|y| ≥ 64` gives `0`; `0 ≤ y < 64` is a logical (unsigned) left shift;
`-64 < y < 0` is a logical right shift by `-y`. -/
def shl (x y : Int) : Int :=
  if y ≤ -64 ∨ 64 ≤ y then 0
  else if 0 ≤ y then wrap64 (toU64 x * 2 ^ y.toNat)
  else wrap64 (toU64 x / 2 ^ (-y).toNat)

/-- `shr` from `src/runtime/ops.rs`: `shl(x, y.wrapping_neg())`. -/
def shr (x y : Int) : Int := shl x (wrappingNeg y)

/-! ### Float model -/

/-- Exact carrier for `f64` values: NaN, the infinities, and exact finite
values represented as rationals.  Every non-NaN `f64` is one of these, and
ordering, `ceil`, `floor` and negation are exact on them.  (Rounding float
arithmetic is abstracted by `FloatSem` below.) -/
inductive FloatV
  | nan
  | inf
  | ninf
  | fin (q : ℚ)
deriving DecidableEq

/-- IEEE `<` on the float carrier: any comparison involving NaN is false. -/
def FloatV.flt : FloatV → FloatV → Bool
  | .fin a, .fin b => a < b
  | .fin _, .inf => true
  | .ninf, .fin _ => true
  | .ninf, .inf => true
  | _, _ => false

/-- IEEE `≤` on the float carrier: any comparison involving NaN is false. -/
def FloatV.fle : FloatV → FloatV → Bool
  | .nan, _ => false
  | _, .nan => false
  | .ninf, _ => true
  | _, .inf => true
  | .fin a, .fin b => a ≤ b
  | _, _ => false

/-- `f64::ceil`, exact on the carrier; NaN and infinities map to themselves. -/
def FloatV.ceil : FloatV → FloatV
  | .fin q => .fin (⌈q⌉ : ℤ)
  | x => x

/-- `f64::floor`, exact on the carrier; NaN and infinities map to themselves. -/
def FloatV.floor : FloatV → FloatV
  | .fin q => .fin (⌊q⌋ : ℤ)
  | x => x

/-- `f64` negation, exact. -/
def FloatV.neg : FloatV → FloatV
  | .nan => .nan
  | .inf => .ninf
  | .ninf => .inf
  | .fin q => .fin (-q)

/-- Modelled from the spec: `number_is_valid_integer` (not in the snapshot)
holds of a float with no fractional part that lies within the signed-64
range. -/
def numberIsValidInteger : FloatV → Bool
  | .fin q => q.den = 1 && decide (i64Min ≤ q.num) && decide (q.num ≤ i64Max)
  | _ => false

/-- The Rust `as Integer` cast as used in `lt`/`le`: it is only applied to
floats satisfying `numberIsValidInteger`, where it is exact. -/
def FloatV.toIntVal : FloatV → Int
  | .fin q => q.num
  | _ => 0

/-! ### Values -/

/-- `LuaClosure` from `src/types/closure.rs`: a prototype reference paired
with the list of upvalue cells (heap-cell identifiers). -/
structure LuaClosureV where
  protoId : Nat
  upvalues : List Nat
deriving DecidableEq

/-- The `Value` tagged union.  Heap references (strings aside) are modelled
as identifiers; strings carry their byte content (`Modelled from the spec:`
a `LuaString` is an immutable byte sequence compared by byte order). -/
inductive Value
  | nil
  | boolean (b : Bool)
  | integer (n : Int)
  | number (x : FloatV)
  | str (s : List Nat)
  | table (id : Nat)
  | luaClosure (c : LuaClosureV)
  | nativeClosure (id : Nat)
deriving DecidableEq

/-- Modelled from the spec: `to_number_without_string_coercion` succeeds on
`Integer` (widening) and `Number`. -/
def Value.toNumber : Value → Option FloatV
  | .integer n => some (.fin (n : ℚ))
  | .number x => some x
  | _ => none

/-- Modelled from the spec: `to_integer_without_string_coercion` succeeds on
`Integer`, and on `Number n` iff `n` has no fractional part and is within
the signed-64 range. -/
def Value.toInteger : Value → Option Int
  | .integer n => some n
  | .number x => if numberIsValidInteger x then some x.toIntVal else none
  | _ => none

/-- Modelled from the spec: `Value::as_integer` succeeds exactly on the
`Integer` variant (integer `for` loops and `Unm`/`BNot` distinguish the
variants). -/
def Value.asInteger : Value → Option Int
  | .integer n => some n
  | _ => none

/-- Modelled from the spec: `Value::as_number`, used after `as_integer`
fails; same coercion as `to_number_without_string_coercion`. -/
def Value.asNumber : Value → Option FloatV := Value.toNumber

/-- Modelled from the spec: truthiness; `Nil` and `false` are the only
falsy values. -/
def Value.asBoolean : Value → Bool
  | .nil => false
  | .boolean b => b
  | _ => true

/-- Whether a value is the `Integer` variant. -/
def Value.isInteger : Value → Bool
  | .integer _ => true
  | _ => false

/-- Lexicographic strict byte order on strings (Rust `Vec<u8>` ordering). -/
def bytesLt : List Nat → List Nat → Bool
  | [], [] => false
  | [], _ :: _ => true
  | _ :: _, [] => false
  | a :: as, b :: bs => if a < b then true else if b < a then false else bytesLt as bs

/-- Lexicographic non-strict byte order on strings. -/
def bytesLe : List Nat → List Nat → Bool
  | [], _ => true
  | _ :: _, [] => false
  | a :: as, b :: bs => if a < b then true else if b < a then false else bytesLe as bs

/-- `lt` from `src/runtime/ops.rs`: ordered strict comparison; `none` is the
"caller raises a type error" outcome. -/
def lt : Value → Value → Option Bool
  | .integer a, .integer b => some (decide (a < b))
  | .number a, .number b => some (a.flt b)
  | .integer a, .number b =>
    let ceilB := b.ceil
    some (if numberIsValidInteger ceilB then decide (a < ceilB.toIntVal)
          else FloatV.flt (.fin 0) b)
  | .number a, .integer b =>
    let floorA := a.floor
    some (if numberIsValidInteger floorA then decide (floorA.toIntVal < b)
          else a.flt (.fin 0))
  | .str a, .str b => some (bytesLt a b)
  | _, _ => none

/-- `le` from `src/runtime/ops.rs`: ordered non-strict comparison; `none` is
the "caller raises a type error" outcome. -/
def le : Value → Value → Option Bool
  | .integer a, .integer b => some (decide (a ≤ b))
  | .number a, .number b => some (a.fle b)
  | .integer a, .number b =>
    let floorB := b.floor
    some (if numberIsValidInteger floorB then decide (a ≤ floorB.toIntVal)
          else FloatV.flt (.fin 0) b)
  | .number a, .integer b =>
    let ceilA := a.ceil
    some (if numberIsValidInteger ceilA then decide (ceilA.toIntVal ≤ b)
          else a.flt (.fin 0))
  | .str a, .str b => some (bytesLe a b)
  | _, _ => none

/-! ### Instruction and opcode model -/

/-- The opcode set of `src/runtime/opcode.rs`, in declaration order. -/
inductive OpCode
  | Move | LoadI | LoadF | LoadK | LoadKX | LoadFalse | LFalseSkip | LoadTrue
  | LoadNil | GetUpval | SetUpval | GetTabUp | GetTable | GetI | GetField
  | SetTabUp | SetTable | SetI | SetField | NewTable | Self_
  | AddI | AddK | SubK | MulK | ModK | PowK | DivK | IDivK
  | BAndK | BOrK | BXorK | ShrI | ShlI
  | Add | Sub | Mul | Mod | Pow | Div | IDiv | BAnd | BOr | BXor | Shl | Shr
  | MmBin | MmBinI | MmBinK | Unm | BNot | Not | Len | Concat | Close | Tbc
  | Jmp | Eq | Lt | Le | EqK | EqI | LtI | LeI | GtI | GeI | Test | TestSet
  | Call | TailCall | Return | Return0 | Return1 | ForLoop | ForPrep
  | TForPrep | TForCall | TForLoop | SetList | Closure | VarArg | VarArgPrep
  | ExtraArg
deriving DecidableEq

/-- A decoded instruction: the opcode together with the field views the
dispatch loop reads (`a`, `b`, `c`, `k`, `bx`, `sbx`, `sj`, `sc`). -/
structure Instr where
  op : OpCode
  a : Nat
  b : Nat
  c : Nat
  k : Bool
  bx : Nat
  sbx : Int
  sj : Int
  sc : Int
deriving DecidableEq

/-! ### ops.rs arithmetic helpers -/

/-- The mutable state the `do_*` helpers of `src/runtime/ops.rs` act on: the
register window (`&mut [Value]`) and the program counter. -/
structure OpsState where
  stack : List Value
  pc : Nat
deriving DecidableEq

/-- `arithmetic` from `src/runtime/ops.rs`: integer op when both operands
are `Integer`, float op when both coerce to `Number`, otherwise `None`. -/
def arithmetic (a b : Value) (intOp : Int → Int → Int)
    (floatOp : FloatV → FloatV → FloatV) : Option Value :=
  match a, b with
  | .integer x, .integer y => some (.integer (intOp x y))
  | _, _ =>
    match a.toNumber, b.toNumber with
    | some x, some y => some (.number (floatOp x y))
    | _, _ => none

/-- `float_arithmetic` from `src/runtime/ops.rs`. -/
def float_arithmetic (a b : Value) (floatOp : FloatV → FloatV → FloatV) :
    Option Value :=
  match a.toNumber, b.toNumber with
  | some x, some y => some (.number (floatOp x y))
  | _, _ => none

/-- `bitwise_op` from `src/runtime/ops.rs`: both operands must coerce
losslessly to `Integer`. -/
def bitwise_op (a b : Value) (intOp : Int → Int → Int) : Option Value :=
  match a.toInteger, b.toInteger with
  | some x, some y => some (.integer (intOp x y))
  | _, _ => none

/-- `do_arithmetic` from `src/runtime/ops.rs`: on success write `R[A]` and
advance `pc`; on soft failure leave the state untouched. -/
def do_arithmetic (st : OpsState) (insn : Instr) (intOp : Int → Int → Int)
    (floatOp : FloatV → FloatV → FloatV) : OpsState :=
  match arithmetic (st.stack.getD insn.b .nil) (st.stack.getD insn.c .nil)
      intOp floatOp with
  | some result => ⟨st.stack.set insn.a result, st.pc + 1⟩
  | none => st

/-- `do_arithmetic_with_constant` from `src/runtime/ops.rs`. -/
def do_arithmetic_with_constant (st : OpsState) (constants : List Value)
    (insn : Instr) (intOp : Int → Int → Int)
    (floatOp : FloatV → FloatV → FloatV) : OpsState :=
  match arithmetic (st.stack.getD insn.b .nil) (constants.getD insn.c .nil)
      intOp floatOp with
  | some result => ⟨st.stack.set insn.a result, st.pc + 1⟩
  | none => st

/-- `do_arithmetic_with_immediate` from `src/runtime/ops.rs`: dispatch on
the variant of `R[B]`; any other variant returns with no effect. -/
def do_arithmetic_with_immediate (st : OpsState) (insn : Instr)
    (intOp : Int → Int → Int) (floatOp : FloatV → FloatV → FloatV) :
    OpsState :=
  match st.stack.getD insn.b .nil with
  | .integer b => ⟨st.stack.set insn.a (.integer (intOp b insn.sc)), st.pc + 1⟩
  | .number b =>
    ⟨st.stack.set insn.a (.number (floatOp b (.fin (insn.sc : ℚ)))), st.pc + 1⟩
  | _ => st

/-- `do_float_arithmetic` from `src/runtime/ops.rs`. -/
def do_float_arithmetic (st : OpsState) (insn : Instr)
    (floatOp : FloatV → FloatV → FloatV) : OpsState :=
  match float_arithmetic (st.stack.getD insn.b .nil)
      (st.stack.getD insn.c .nil) floatOp with
  | some result => ⟨st.stack.set insn.a result, st.pc + 1⟩
  | none => st

/-- `do_float_arithmetic_with_constant` from `src/runtime/ops.rs`. -/
def do_float_arithmetic_with_constant (st : OpsState) (constants : List Value)
    (insn : Instr) (floatOp : FloatV → FloatV → FloatV) : OpsState :=
  match (st.stack.getD insn.b .nil).toNumber,
      (constants.getD insn.c .nil).toNumber with
  | some b, some c => ⟨st.stack.set insn.a (.number (floatOp b c)), st.pc + 1⟩
  | _, _ => st

/-- `do_bitwise_op` from `src/runtime/ops.rs`. -/
def do_bitwise_op (st : OpsState) (insn : Instr) (intOp : Int → Int → Int) :
    OpsState :=
  match bitwise_op (st.stack.getD insn.b .nil) (st.stack.getD insn.c .nil)
      intOp with
  | some result => ⟨st.stack.set insn.a result, st.pc + 1⟩
  | none => st

/-- `do_bitwise_op_with_constant` from `src/runtime/ops.rs`. -/
def do_bitwise_op_with_constant (st : OpsState) (constants : List Value)
    (insn : Instr) (intOp : Int → Int → Int) : OpsState :=
  match bitwise_op (st.stack.getD insn.b .nil) (constants.getD insn.c .nil)
      intOp with
  | some result => ⟨st.stack.set insn.a result, st.pc + 1⟩
  | none => st

/-! ### Heap, prototypes and VM state -/

/-- `Upvalue` from `src/types/closure.rs`: a shared cell that is either
`Open(stack_index)` or `Closed(value)`. -/
inductive UpvalueV
  | opened (i : Nat)
  | closed (v : Value)
deriving DecidableEq

/-- `UpvalueDescription` from `src/types/closure.rs`. -/
structure UpvalDesc where
  inStack : Bool
  index : Nat
deriving DecidableEq

/-- `LuaClosureProto` from `src/types/closure.rs`; `Gc` references to child
prototypes are modelled as identifiers into a prototype store. -/
structure ProtoV where
  maxStackSize : Nat
  code : List Instr
  constants : List Value
  protos : List Nat
  upvalueDescs : List UpvalDesc
deriving DecidableEq

/-- A call-frame descriptor (`Frame` in `src/vm.rs`). -/
structure Frame where
  bottom : Nat
  pc : Nat
deriving DecidableEq

/-- The interpreter state of `src/vm.rs`: the value stack, the frame stack
(top of stack last, as in the Rust `Vec`), the ordered open-upvalue map
(stack index to upvalue-cell id; keys are unique), the upvalue-cell heap
(cell id is the position in the list; allocation appends), and the global
table reference. -/
structure VmState where
  stack : List Value
  frames : List Frame
  openUpvalues : List (Nat × Nat)
  cells : List UpvalueV
  globalTable : Nat
deriving DecidableEq

/-- Read register `R[i]` of a frame: the stack slot `bottom + 1 + i`. -/
def readReg (vm : VmState) (frame : Frame) (i : Nat) : Value :=
  vm.stack.getD (frame.bottom + 1 + i) .nil

/-- Lookup in the open-upvalue map. -/
def lookupUv : List (Nat × Nat) → Nat → Option Nat
  | [], _ => none
  | e :: es, i => if e.1 = i then some e.2 else lookupUv es i

/-- The part of the VM state the `Closure` arm touches: the open-upvalue map
and the upvalue-cell heap. -/
structure ClosCtx where
  openUpvalues : List (Nat × Nat)
  cells : List UpvalueV
deriving DecidableEq

/-- Resolution of one upvalue descriptor by the `Closure` arm of
`src/vm.rs`: an `in_stack` descriptor looks up key `bottom + 1 + index`
in the open-upvalue map, allocating a fresh shared `Open` cell only when
no entry exists (`entry(index).or_insert_with(...)`); otherwise the parent
closure's cell at `index` is inherited. -/
def resolveUpvalue (bottom : Nat) (parentUps : List Nat) (ctx : ClosCtx)
    (desc : UpvalDesc) : Nat × ClosCtx :=
  if desc.inStack then
    let index := bottom + 1 + desc.index
    match lookupUv ctx.openUpvalues index with
    | some cell => (cell, ctx)
    | none =>
      let cell := ctx.cells.length
      (cell, ⟨(index, cell) :: ctx.openUpvalues,
              ctx.cells ++ [UpvalueV.opened index]⟩)
  else (parentUps.getD desc.index 0, ctx)

/-- Resolution of a whole descriptor list (the `map(...).collect()` of the
`Closure` arm), threading the map and heap left to right. -/
def resolveUpvalues (bottom : Nat) (parentUps : List Nat) (ctx : ClosCtx) :
    List UpvalDesc → List Nat × ClosCtx
  | [] => ([], ctx)
  | d :: ds =>
    let r := resolveUpvalue bottom parentUps ctx d
    let rest := resolveUpvalues bottom parentUps r.2 ds
    (r.1 :: rest.1, rest.2)

/-- The `insn.k()` prologue of the `Return` arm: `split_off` every
open-upvalue entry with stack index at least `bottom` and close each cell
that is still `Open(i)` over the value `stack[i]`. -/
def closeUpvaluesFrom (vm : VmState) (bottom : Nat) : VmState :=
  let toClose := vm.openUpvalues.filter (fun e => bottom ≤ e.1)
  let kept := vm.openUpvalues.filter (fun e => ¬ bottom ≤ e.1)
  let cells := toClose.foldl
    (fun cs e =>
      match cs.getD e.2 (UpvalueV.closed .nil) with
      | .opened i => cs.set e.2 (UpvalueV.closed (vm.stack.getD i .nil))
      | .closed _ => cs)
    vm.cells
  { vm with openUpvalues := kept, cells := cells }

/-- The `Return` arm of `src/vm.rs`, verbatim: after the optional upvalue
close, `num_results` is `B - 1` (or `stack.len() - A` when `B = 0`), the
copy loop executes `stack[bottom + i] = stack[bottom + 1 + A]` for each
`i`, the stack is truncated to `bottom + num_results`, and the frame is
popped.  (Note the copy reads the fixed slot `bottom + 1 + A`.) -/
def execReturn (vm : VmState) (frame : Frame) (insn : Instr) : VmState :=
  let vm := if insn.k then closeUpvaluesFrom vm frame.bottom else vm
  let a := insn.a
  let b := insn.b
  let numResults := if 0 < b then b - 1 else vm.stack.length - a
  let stack := (List.range numResults).foldl
    (fun st i => st.set (frame.bottom + i) (st.getD (frame.bottom + 1 + a) .nil))
    vm.stack
  { vm with stack := stack.take (frame.bottom + numResults),
            frames := vm.frames.dropLast }

/-- The `Return0` arm of `src/vm.rs`. -/
def execReturn0 (vm : VmState) (frame : Frame) : VmState :=
  { vm with stack := vm.stack.take frame.bottom,
            frames := vm.frames.dropLast }

/-- The `Return1` arm of `src/vm.rs`. -/
def execReturn1 (vm : VmState) (frame : Frame) (insn : Instr) : VmState :=
  { vm with stack := (vm.stack.set frame.bottom
                        (readReg vm frame insn.a)).take (frame.bottom + 1),
            frames := vm.frames.dropLast }

/-- The prologue of `Vm::execute` (`src/vm.rs` lines 96–111): assert that
the closure has no upvalues (`none` models the `assert!` panic), allocate a
cell holding the global table and install it as the sole upvalue, push the
closure at `bottom = stack.len()`, and push a frame `{bottom, pc: 0}`. -/
def executeEntry (vm : VmState) (closure : LuaClosureV) : Option VmState :=
  if closure.upvalues = [] then
    let cellId := vm.cells.length
    some { vm with
      cells := vm.cells ++ [UpvalueV.closed (Value.table vm.globalTable)],
      stack := vm.stack ++ [Value.luaClosure ⟨closure.protoId, [cellId]⟩],
      frames := vm.frames ++ [⟨vm.stack.length, 0⟩] }
  else none

/-! ### Dispatch -/

/-- Outcome of dispatching one instruction inside `execute_frame`:

* `ok vm pc` — continue the frame loop with the updated state;
* `frameChanged vm` — the arm returned `Ok(())` to the driver loop
  (`Call` into a Lua closure and the `Return` family);
* `err` — the arm raised an `ErrorKind` (propagated with `?`);
* `panicked msg` — the arm hit `unimplemented!`, `todo!`, a failed
  `assert!` or an `unwrap` on `None`;
* `unmodeled` — arms whose semantics (tables, native calls, wide
  constants, conditional jumps) no claim depends on; they are outside this
  embedding. -/
inductive StepResult
  | ok (vm : VmState) (pc : Nat)
  | frameChanged (vm : VmState)
  | err
  | panicked (msg : String)
  | unmodeled
deriving DecidableEq

/-- Whether a dispatch outcome is a Rust panic. -/
def StepResult.isPanicked : StepResult → Bool
  | .panicked _ => true
  | _ => false

/-- Abstract semantics of the rounding `f64` operations (`+`, `-`, `*`,
`/`, `powf`).  Their results are rounded and are not modelled exactly; the
claims only depend on the operand-shape dispatch around them. -/
structure FloatSem where
  fadd : FloatV → FloatV → FloatV
  fsub : FloatV → FloatV → FloatV
  fmul : FloatV → FloatV → FloatV
  fdivF : FloatV → FloatV → FloatV
  fpow : FloatV → FloatV → FloatV

/-- Write register `R[i]` of a frame. -/
def setReg (vm : VmState) (frame : Frame) (i : Nat) (v : Value) : VmState :=
  { vm with stack := vm.stack.set (frame.bottom + 1 + i) v }

/-- Run one of the `ops.rs` helpers on the register window
(`stack.split_at_mut(bottom + 1)`) and splice the window back. -/
def opsArm (vm : VmState) (frame : Frame) (pc : Nat)
    (f : OpsState → OpsState) : StepResult :=
  let r := f ⟨vm.stack.drop (frame.bottom + 1), pc⟩
  .ok { vm with stack := vm.stack.take (frame.bottom + 1) ++ r.stack } r.pc

/-- The empty prototype, used as the `getD` default for store lookups. -/
def ProtoV.empty : ProtoV := ⟨0, [], [], [], []⟩

/-- One iteration of the `execute_frame` dispatch loop of `src/vm.rs`.
`pc` is the program counter already advanced past `insn` (the loop performs
`state.pc += 1` before the `match`).  Arms that are `unimplemented!` in the
source map to `panicked`; arms whose effects no claim depends on map to
`unmodeled`. -/
def dispatch (fs : FloatSem) (store : List ProtoV) (vm : VmState)
    (frame : Frame) (closure : LuaClosureV) (pc : Nat) (insn : Instr) :
    StepResult :=
  match insn.op with
  | .Move => .ok (setReg vm frame insn.a (readReg vm frame insn.b)) pc
  | .LoadI => .ok (setReg vm frame insn.a (.integer insn.sbx)) pc
  | .LoadF => .ok (setReg vm frame insn.a (.number (.fin (insn.sbx : ℚ)))) pc
  | .LoadK =>
    let proto := store.getD closure.protoId ProtoV.empty
    .ok (setReg vm frame insn.a (proto.constants.getD insn.bx .nil)) pc
  | .LoadKX => .unmodeled
  | .LoadFalse => .ok (setReg vm frame insn.a (.boolean false)) pc
  | .LFalseSkip => .ok (setReg vm frame insn.a (.boolean false)) (pc + 1)
  | .LoadTrue => .ok (setReg vm frame insn.a (.boolean true)) pc
  | .LoadNil =>
    let stack := (List.range insn.b).foldl
      (fun st i => st.set (frame.bottom + 1 + insn.a + i) Value.nil) vm.stack
    .ok { vm with stack := stack } pc
  | .GetUpval => .unmodeled
  | .SetUpval => .panicked ("SETUPVAL")
  | .GetTabUp => .unmodeled
  | .GetTable => .unmodeled
  | .GetI => .unmodeled
  | .GetField => .unmodeled
  | .SetTabUp => .unmodeled
  | .SetTable => .unmodeled
  | .SetI => .unmodeled
  | .SetField => .unmodeled
  | .NewTable => .unmodeled
  | .Self_ => .unmodeled
  | .AddI =>
    opsArm vm frame pc
      (fun st => do_arithmetic_with_immediate st insn
        (fun x y => wrap64 (x + y)) fs.fadd)
  | .AddK =>
    opsArm vm frame pc
      (fun st => do_arithmetic_with_constant st
        (store.getD closure.protoId ProtoV.empty).constants insn
        (fun x y => wrap64 (x + y)) fs.fadd)
  | .SubK =>
    opsArm vm frame pc
      (fun st => do_arithmetic_with_constant st
        (store.getD closure.protoId ProtoV.empty).constants insn
        (fun x y => wrap64 (x - y)) fs.fsub)
  | .MulK =>
    opsArm vm frame pc
      (fun st => do_arithmetic_with_constant st
        (store.getD closure.protoId ProtoV.empty).constants insn
        (fun x y => wrap64 (x * y)) fs.fmul)
  | .ModK => .panicked ("MODK")
  | .PowK =>
    opsArm vm frame pc
      (fun st => do_float_arithmetic_with_constant st
        (store.getD closure.protoId ProtoV.empty).constants insn fs.fpow)
  | .DivK =>
    opsArm vm frame pc
      (fun st => do_float_arithmetic_with_constant st
        (store.getD closure.protoId ProtoV.empty).constants insn fs.fdivF)
  | .IDivK => .panicked ("IDIVK")
  | .BAndK =>
    opsArm vm frame pc
      (fun st => do_bitwise_op_with_constant st
        (store.getD closure.protoId ProtoV.empty).constants insn
        (fun x y => Int.land x y))
  | .BOrK =>
    opsArm vm frame pc
      (fun st => do_bitwise_op_with_constant st
        (store.getD closure.protoId ProtoV.empty).constants insn
        (fun x y => Int.lor x y))
  | .BXorK =>
    opsArm vm frame pc
      (fun st => do_bitwise_op_with_constant st
        (store.getD closure.protoId ProtoV.empty).constants insn
        (fun x y => Int.xor x y))
  | .ShrI => .panicked ("SHRI")
  | .ShlI => .panicked ("SHLI")
  | .Add =>
    opsArm vm frame pc
      (fun st => do_arithmetic st insn (fun x y => wrap64 (x + y)) fs.fadd)
  | .Sub =>
    opsArm vm frame pc
      (fun st => do_arithmetic st insn (fun x y => wrap64 (x - y)) fs.fsub)
  | .Mul =>
    opsArm vm frame pc
      (fun st => do_arithmetic st insn (fun x y => wrap64 (x * y)) fs.fmul)
  | .Mod => .panicked ("MOD")
  | .Pow => opsArm vm frame pc (fun st => do_float_arithmetic st insn fs.fpow)
  | .Div => opsArm vm frame pc (fun st => do_float_arithmetic st insn fs.fdivF)
  | .IDiv => .panicked ("IDIV")
  | .BAnd =>
    opsArm vm frame pc (fun st => do_bitwise_op st insn (fun x y => Int.land x y))
  | .BOr =>
    opsArm vm frame pc (fun st => do_bitwise_op st insn (fun x y => Int.lor x y))
  | .BXor =>
    opsArm vm frame pc (fun st => do_bitwise_op st insn (fun x y => Int.xor x y))
  | .Shl => opsArm vm frame pc (fun st => do_bitwise_op st insn shl)
  | .Shr => opsArm vm frame pc (fun st => do_bitwise_op st insn shr)
  | .MmBin => .panicked ("MMBIN")
  | .MmBinI => .panicked ("MMBINI")
  | .MmBinK => .panicked ("MMBINK")
  | .Unm =>
    let rb := readReg vm frame insn.b
    match rb.asInteger with
    | some x => .ok (setReg vm frame insn.a (.integer (wrap64 (-x)))) pc
    | none =>
      match rb.asNumber with
      | some x => .ok (setReg vm frame insn.a (.number x.neg)) pc
      | none => .panicked ("UNM")
  | .BNot =>
    let rb := readReg vm frame insn.b
    match rb.asInteger with
    | some x => .ok (setReg vm frame insn.a (.integer (-x - 1))) pc
    | none => .panicked ("BNOT")
  | .Not =>
    .ok (setReg vm frame insn.a (.boolean (!(readReg vm frame insn.b).asBoolean)))
      pc
  | .Len => .panicked ("LEN")
  | .Concat => .unmodeled
  | .Close => .panicked ("CLOSE")
  | .Tbc => .panicked ("TBC")
  | .Jmp => .ok vm ((pc : Int) + insn.sj).toNat
  | .Eq => .unmodeled
  | .Lt => .unmodeled
  | .Le => .unmodeled
  | .EqK => .unmodeled
  | .EqI => .unmodeled
  | .LtI => .unmodeled
  | .LeI => .unmodeled
  | .GtI => .unmodeled
  | .GeI => .unmodeled
  | .Test => .unmodeled
  | .TestSet => .panicked ("TESTSET")
  | .Call =>
    let a := insn.a
    let ra := readReg vm frame a
    match ra with
    | .luaClosure _ =>
      .frameChanged { vm with
        frames := vm.frames.dropLast
          ++ [⟨frame.bottom, pc⟩, ⟨frame.bottom + a + 1, 0⟩] }
    | .nativeClosure _ => .unmodeled
    | _ => .err
  | .TailCall => .panicked ("TAILCALL")
  | .Return => .frameChanged (execReturn vm frame insn)
  | .Return0 => .frameChanged (execReturn0 vm frame)
  | .Return1 => .frameChanged (execReturn1 vm frame insn)
  | .ForLoop =>
    let a := insn.a
    match (readReg vm frame (a + 2)).asInteger with
    | some step =>
      match (readReg vm frame (a + 1)).asInteger with
      | some count =>
        if 0 < count then
          match (readReg vm frame a).asInteger with
          | some index =>
            let vm := setReg vm frame (a + 1) (.integer (wrap64 (count - 1)))
            let newIndex := wrap64 (index + step)
            let vm := setReg vm frame a (.integer newIndex)
            let vm := setReg vm frame (a + 3) (.integer newIndex)
            .ok vm (pc - insn.bx)
          | none => .panicked ("called Option unwrap on a None value")
        else .ok vm pc
      | none => .panicked ("called Option unwrap on a None value")
    | none => .panicked ("FORLOOP")
  | .ForPrep =>
    let a := insn.a
    match (readReg vm frame a).asInteger,
          (readReg vm frame (a + 1)).asInteger,
          (readReg vm frame (a + 2)).asInteger with
    | some init, some limit, some step =>
      if step = 0 then .panicked ("assertion failed: step != 0")
      else
        let skip := if 0 < step then limit < init else init < limit
        if skip then .ok vm (pc + insn.bx + 1)
        else
          let vm1 := setReg vm frame (a + 3) (readReg vm frame a)
          let count :=
            if 0 < step then (wrap64 (limit - init)).tdiv step
            else (wrap64 (init - limit)).tdiv
              (wrap64 (wrappingNeg (wrap64 (step + 1)) + 1))
          .ok (setReg vm1 frame (a + 1) (.integer count)) pc
    | _, _, _ => .panicked ("FORPREP")
  | .TForPrep => .panicked ("TFORPREP")
  | .TForCall => .panicked ("TFORCALL")
  | .TForLoop => .panicked ("TFORLOOP")
  | .SetList => .unmodeled
  | .Closure =>
    let proto := store.getD closure.protoId ProtoV.empty
    let childId := proto.protos.getD insn.bx 0
    let child := store.getD childId ProtoV.empty
    let r := resolveUpvalues frame.bottom closure.upvalues
      ⟨vm.openUpvalues, vm.cells⟩ child.upvalueDescs
    let vm1 := { vm with openUpvalues := r.2.openUpvalues, cells := r.2.cells }
    .ok (setReg vm1 frame insn.a (.luaClosure ⟨childId, r.1⟩)) pc
  | .VarArg => .panicked ("VARARG")
  | .VarArgPrep => .ok vm pc
  | .ExtraArg => .panicked ("entered unreachable code")

/-- The opcodes whose dispatch arm is unconditionally `unimplemented!` in
`src/vm.rs`. -/
def panicOps : List OpCode :=
  [.SetUpval, .ModK, .IDivK, .ShrI, .ShlI, .Mod, .IDiv, .MmBin, .MmBinI,
   .MmBinK, .Len, .Close, .Tbc, .TestSet, .TailCall, .TForPrep, .TForCall,
   .TForLoop, .VarArg]

/-! ### Arithmetic helper lemmas -/

lemma wrap64_eq_self {x : Int} (h1 : i64Min ≤ x) (h2 : x ≤ i64Max) :
    wrap64 x = x := by
  simp only [i64Min, i64Max] at h1 h2
  unfold wrap64
  omega

lemma wrap64_add_left (x y : Int) : wrap64 (wrap64 x + y) = wrap64 (x + y) := by
  unfold wrap64
  omega

lemma toU64_wrap64 (z : Int) : toU64 (wrap64 z) = z % 2 ^ 64 := by
  unfold toU64 wrap64
  omega

lemma tmod_neg_left (a b : Int) : (-a).tmod b = -(a.tmod b) := by
  rw [Int.tmod_def, Int.tmod_def, Int.neg_tdiv]
  ring

lemma tmod_nonpos {a : Int} (b : Int) (ha : a ≤ 0) : a.tmod b ≤ 0 := by
  have h := Int.tmod_nonneg b (by omega : (0:Int) ≤ -a)
  rw [tmod_neg_left] at h
  omega

lemma tmod_abs_eq (a b : Int) : a.tmod b = a.tmod |b| := by
  rcases abs_choice b with h | h
  · rw [h]
  · rw [h, Int.tmod_neg]

lemma tmod_bounds {a b : Int} (hb : b ≠ 0) :
    -|b| < a.tmod b ∧ a.tmod b < |b| := by
  rw [tmod_abs_eq]
  have hB : 0 < |b| := abs_pos.mpr hb
  rcases le_or_lt 0 a with ha | ha
  · have h1 := Int.tmod_nonneg |b| ha
    have h2 := Int.tmod_lt_of_pos a hB
    omega
  · have h2 := Int.tmod_nonneg |b| (by omega : (0:Int) ≤ -a)
    have h3 := Int.tmod_lt_of_pos (-a) hB
    rw [tmod_neg_left] at h2 h3
    omega

lemma tmod_neg_iff {a b : Int} (hm : a.tmod b ≠ 0) : a.tmod b < 0 ↔ a < 0 := by
  rcases le_or_lt 0 a with ha | ha
  · have := Int.tmod_nonneg b ha
    constructor <;> intro h <;> omega
  · have := tmod_nonpos b (le_of_lt ha)
    constructor <;> intro h <;> omega

lemma sign_ne_iff {a b : Int} (ha : a ≠ 0) (hb : b ≠ 0) :
    (¬ Int.sign a = Int.sign b) ↔ ¬(a < 0 ↔ b < 0) := by
  rcases lt_trichotomy a 0 with h1 | h1 | h1
  · rw [Int.sign_eq_neg_one_of_neg h1]
    rcases lt_trichotomy b 0 with h2 | h2 | h2
    · rw [Int.sign_eq_neg_one_of_neg h2]
      simp [h1, h2]
    · exact absurd h2 hb
    · rw [Int.sign_eq_one_iff_pos.mpr h2]
      simp [h1]
      omega
  · exact absurd h1 ha
  · rw [Int.sign_eq_one_iff_pos.mpr h1]
    rcases lt_trichotomy b 0 with h2 | h2 | h2
    · rw [Int.sign_eq_neg_one_of_neg h2]
      simp [h2]
      omega
    · exact absurd h2 hb
    · rw [Int.sign_eq_one_iff_pos.mpr h2]
      simp
      omega

lemma tmod_ne_zero_ne {a b : Int} (hm : a.tmod b ≠ 0) : a ≠ 0 := by
  intro h
  rw [h, Int.zero_tmod] at hm
  exact hm rfl

lemma idivi_eq_floor {a b : Int} (hb0 : b ≠ 0) (hb1 : b ≠ -1) :
    idivi a b = some ⌊(a : ℚ) / (b : ℚ)⌋ := by
  unfold idivi
  rw [if_neg hb0, if_neg hb1]
  refine congrArg some ?_
  have hab : ((b : ℚ)) * ((a.tdiv b : Int) : ℚ) + ((a.tmod b : Int) : ℚ)
      = (a : ℚ) := by
    exact_mod_cast congrArg (fun z : Int => (z : ℚ)) (Int.tdiv_add_tmod a b)
  have hbounds := tmod_bounds (a := a) hb0
  symm
  rw [Int.floor_eq_iff]
  rcases lt_or_gt_of_ne hb0 with hneg | hpos
  · have hbq' : ((b : ℚ)) < 0 := by exact_mod_cast hneg
    have habs : |b| = -b := abs_of_neg hneg
    split_ifs with hc
    · have hr : 0 < a.tmod b := by
        rcases hc with ⟨h1, h2⟩
        have ha : 0 ≤ a := by
          by_contra hna
          exact h1 ⟨fun _ => hneg, fun _ => by omega⟩
        have := Int.tmod_nonneg b ha
        omega
      have c1 : ((a.tmod b : Int) : ℚ) < -(b : ℚ) := by
        exact_mod_cast (by omega : a.tmod b < -b)
      have c2 : (0 : ℚ) < ((a.tmod b : Int) : ℚ) := by exact_mod_cast hr
      constructor
      · rw [le_div_iff_of_neg hbq']
        push_cast
        linarith [hab]
      · rw [div_lt_iff_of_neg hbq']
        push_cast
        linarith [hab]
    · have hr : a.tmod b ≤ 0 := by
        rcases not_and_or.mp hc with h1 | h1
        · have hiff : a < 0 ↔ b < 0 := not_not.mp h1
          exact tmod_nonpos b (by omega)
        · omega
      have c1 : (b : ℚ) < ((a.tmod b : Int) : ℚ) := by
        exact_mod_cast (by omega : b < a.tmod b)
      have c2 : ((a.tmod b : Int) : ℚ) ≤ 0 := by exact_mod_cast hr
      constructor
      · rw [le_div_iff_of_neg hbq']
        linarith [hab]
      · rw [div_lt_iff_of_neg hbq']
        linarith [hab]
  · have hbq' : (0 : ℚ) < (b : ℚ) := by exact_mod_cast hpos
    have habs : |b| = b := abs_of_pos hpos
    split_ifs with hc
    · have hr : a.tmod b < 0 := by
        rcases hc with ⟨h1, h2⟩
        have ha : a ≤ 0 := by
          by_contra hna
          exact h1 ⟨fun h => absurd hpos (by omega), fun h => by omega⟩
        have := tmod_nonpos b ha
        omega
      have c1 : -(b : ℚ) < ((a.tmod b : Int) : ℚ) := by
        exact_mod_cast (by omega : -b < a.tmod b)
      have c2 : ((a.tmod b : Int) : ℚ) < 0 := by exact_mod_cast hr
      constructor
      · rw [le_div_iff hbq']
        push_cast
        linarith [hab]
      · rw [div_lt_iff hbq']
        push_cast
        linarith [hab]
    · have hr : 0 ≤ a.tmod b := by
        rcases not_and_or.mp hc with h1 | h1
        · have hiff : a < 0 ↔ b < 0 := not_not.mp h1
          exact Int.tmod_nonneg b (by omega)
        · omega
      have c1 : ((a.tmod b : Int) : ℚ) < (b : ℚ) := by
        exact_mod_cast (by omega : a.tmod b < b)
      have c2 : (0 : ℚ) ≤ ((a.tmod b : Int) : ℚ) := by exact_mod_cast hr
      constructor
      · rw [le_div_iff hbq']
        linarith [hab]
      · rw [div_lt_iff hbq']
        linarith [hab]

/-! ### Claim theorems: integer arithmetic (C3, C4, C7) -/

/-- C3: for all 64-bit integers `a`, `b`, integer division `idivi a b`
returns the truncated quotient `a.tdiv b` decremented by one exactly when
`sign a ≠ sign b` and `a % b ≠ 0` — that is, it returns the quotient
floored toward negative infinity, `⌊a / b⌋` — while divisor `-1` returns
`wrapping_neg a` (so `i64Min idiv -1 = i64Min`) and divisor `0` fails
(the `todo!` panic, modelled as `none`). -/
theorem c3_idivi_spec (a b : Int) (ha : i64Min ≤ a ∧ a ≤ i64Max)
    (hb : i64Min ≤ b ∧ b ≤ i64Max) :
    (b ≠ 0 → b ≠ -1 →
      idivi a b
        = some (a.tdiv b
            - if ¬ Int.sign a = Int.sign b ∧ a.tmod b ≠ 0 then 1 else 0)
      ∧ idivi a b = some ⌊(a : ℚ) / (b : ℚ)⌋)
    ∧ idivi a (-1) = some (wrappingNeg a)
    ∧ (a = i64Min → idivi a (-1) = some i64Min)
    ∧ idivi a 0 = none := by
  refine ⟨?_, by simp [idivi], ?_, by simp [idivi]⟩
  · intro hb0 hb1
    refine ⟨?_, idivi_eq_floor hb0 hb1⟩
    unfold idivi
    rw [if_neg hb0, if_neg hb1]
    refine congrArg some ?_
    by_cases hm : a.tmod b = 0
    · rw [if_neg (by simp [hm]), if_neg (by simp [hm])]
      omega
    · have hsign := sign_ne_iff (tmod_ne_zero_ne hm) hb0
      by_cases hs : ¬(a < 0 ↔ b < 0)
      · rw [if_pos ⟨hs, hm⟩, if_pos ⟨hsign.mpr hs, hm⟩]
      · rw [if_neg (by tauto), if_neg (by tauto)]
        omega
  · intro hmin
    subst hmin
    simp [idivi]
    decide

/-- Witness for C3 at concrete inputs: `-7 idiv 2 = -4` (flooring), the
`i64Min idiv -1 = i64Min` boundary, and the divisor-zero failure. -/
theorem c3_idivi_spec_witness :
    idivi (-7) 2 = some (-4)
    ∧ idivi i64Min (-1) = some i64Min
    ∧ idivi 5 0 = none := by
  refine ⟨?_, ?_, ?_⟩
  · have h := (c3_idivi_spec (-7) 2 (by decide) (by decide)).1
      (by decide) (by decide)
    refine h.2.trans (congrArg some ?_)
    rw [Int.floor_eq_iff]
    norm_num
  · exact (c3_idivi_spec i64Min (-1) (by decide) (by decide)).2.2.1 rfl
  · exact (c3_idivi_spec 5 0 (by decide) (by decide)).2.2.2

/-- C4: for all 64-bit integers with `b ∉ {0, -1}`, `modi a b` is the
truncated remainder `a.tmod b` with `b` added exactly when the remainder is
nonzero and its sign differs from `sign b`; the sign of the result is `0`
or `sign b`; and `idiv a b * b + mod a b = a` holds under 64-bit wrapping.
For `b = -1` the result is `0`, and `b = 0` fails (the `todo!` panic,
modelled as `none`). -/
theorem c4_modi_spec (a b : Int) (ha : i64Min ≤ a ∧ a ≤ i64Max)
    (hb : i64Min ≤ b ∧ b ≤ i64Max) :
    (b ≠ 0 → b ≠ -1 →
      modi a b
        = some (a.tmod b
            + if a.tmod b ≠ 0 ∧ ¬ Int.sign (a.tmod b) = Int.sign b then b
              else 0)
      ∧ ∀ q r, idivi a b = some q → modi a b = some r →
          wrap64 (wrap64 (q * b) + r) = a
          ∧ (Int.sign r = 0 ∨ Int.sign r = Int.sign b))
    ∧ modi a (-1) = some 0
    ∧ modi a 0 = none := by
  refine ⟨?_, by simp [modi], by simp [modi]⟩
  intro hb0 hb1
  have hbounds := tmod_bounds (a := a) hb0
  constructor
  · unfold modi
    rw [if_neg hb0, if_neg hb1]
    refine congrArg some ?_
    by_cases hm : a.tmod b = 0
    · rw [if_neg (by simp [hm]), if_neg (by simp [hm])]
      omega
    · have hsign := sign_ne_iff hm hb0
      by_cases hs : ¬(a.tmod b < 0 ↔ b < 0)
      · rw [if_pos ⟨hm, hs⟩, if_pos ⟨hm, hsign.mpr hs⟩]
      · rw [if_neg (by tauto), if_neg (by tauto)]
        omega
  · intro q r hq hr
    unfold idivi at hq
    unfold modi at hr
    rw [if_neg hb0, if_neg hb1] at hq hr
    have hq' := (Option.some.inj hq).symm
    have hr' := (Option.some.inj hr).symm
    have hid : b * a.tdiv b + a.tmod b = a := Int.tdiv_add_tmod a b
    have hqr : q * b + r = a := by
      by_cases hm : a.tmod b = 0
      · rw [if_neg (by simp [hm])] at hq'
        rw [if_neg (by simp [hm])] at hr'
        rw [hq', hr']
        linarith [hid]
      · by_cases hs : a.tmod b < 0 ↔ b < 0
        · rw [if_neg (by rw [tmod_neg_iff hm] at hs; tauto)] at hq'
          rw [if_neg (by tauto)] at hr'
          rw [hq', hr']
          linarith [hid]
        · rw [if_pos ⟨by rw [tmod_neg_iff hm] at hs; tauto, hm⟩] at hq'
          rw [if_pos ⟨hm, hs⟩] at hr'
          rw [hq', hr']
          ring_nf
          linarith [hid]
    constructor
    · rw [wrap64_add_left, hqr]
      exact wrap64_eq_self ha.1 ha.2
    · by_cases hrz : r = 0
      · left
        rw [hrz]
        rfl
      · right
        have hiff : r < 0 ↔ b < 0 := by
          by_cases hm : a.tmod b = 0
          · rw [if_neg (by simp [hm])] at hr'
            exact absurd (hr'.trans hm) hrz
          · by_cases hs : a.tmod b < 0 ↔ b < 0
            · rw [if_neg (by tauto)] at hr'
              rw [hr']
              exact hs
            · rw [if_pos ⟨hm, hs⟩] at hr'
              rcases lt_or_gt_of_ne hb0 with hbneg | hbpos
              · have habs : |b| = -b := abs_of_neg hbneg
                exact ⟨fun _ => hbneg, fun _ => by omega⟩
              · have habs : |b| = b := abs_of_pos hbpos
                exact ⟨fun h => by omega, fun h => absurd hbpos (by omega)⟩
        have h2 := not_iff_not.mpr (sign_ne_iff hrz hb0)
        rw [not_not, not_not] at h2
        exact h2.mpr hiff

/-- Witness for C4 at concrete inputs: `-7 mod 2 = 1`, the division
identity at `(-7, 2)`, `mod -1 = 0`, and the divisor-zero failure. -/
theorem c4_modi_spec_witness :
    modi (-7) 2 = some 1
    ∧ wrap64 (wrap64 ((-4) * 2) + 1) = -7
    ∧ modi 9 (-1) = some 0
    ∧ modi 9 0 = none := by
  have h := (c4_modi_spec (-7) 2 (by decide) (by decide)).1
    (by decide) (by decide)
  have hm : modi (-7) 2 = some 1 := by decide
  refine ⟨hm, ?_, ?_, ?_⟩
  · exact (h.2 (-4) 1 (by decide) hm).1
  · exact (c4_modi_spec 9 (-1) (by decide) (by decide)).2.1
  · exact (c4_modi_spec 9 0 (by decide) (by decide)).2.2

/-- C7: shifts. `shl x y` is `0` whenever `|y| ≥ 64`; for `0 ≤ y < 64` it
is the logical (unsigned) left shift of `x` by `y`; for `-64 < y < 0` it is
the logical right shift of `x` by `-y`; and `shr x y = shl x (-y)` for
every 64-bit `y`, including `y = i64Min`. -/
theorem c7_shift_spec (x y : Int) (hx : i64Min ≤ x ∧ x ≤ i64Max)
    (hy : i64Min ≤ y ∧ y ≤ i64Max) :
    ((y ≤ -64 ∨ 64 ≤ y) → shl x y = 0)
    ∧ (0 ≤ y → y < 64 → toU64 (shl x y) = toU64 x * 2 ^ y.toNat % 2 ^ 64)
    ∧ (-64 < y → y < 0 → toU64 (shl x y) = toU64 x / 2 ^ (-y).toNat)
    ∧ shr x y = shl x (-y) := by
  refine ⟨?_, ?_, ?_, ?_⟩
  · intro h
    unfold shl
    rw [if_pos h]
  · intro h0 h1
    unfold shl
    rw [if_neg (by omega), if_pos h0]
    exact toU64_wrap64 _
  · intro h0 h1
    unfold shl
    rw [if_neg (by omega), if_neg (by omega)]
    rw [toU64_wrap64]
    have hu0 : 0 ≤ toU64 x := by unfold toU64; omega
    have hu1 : toU64 x < 2 ^ 64 := by unfold toU64; omega
    have hk : (0 : Int) < 2 ^ (-y).toNat := pow_pos (by norm_num) _
    have hq0 : 0 ≤ toU64 x / 2 ^ (-y).toNat := Int.ediv_nonneg hu0 (le_of_lt hk)
    have hq1 : toU64 x / 2 ^ (-y).toNat ≤ toU64 x := Int.ediv_le_self _ hu0
    omega
  · unfold shr wrappingNeg
    rcases eq_or_ne y i64Min with hmin | hne
    · subst hmin
      have h1 : wrap64 (-i64Min) = -(2 ^ 63) := by
        unfold wrap64 i64Min
        decide
      rw [h1]
      unfold i64Min shl
      rw [if_pos (by norm_num), if_pos (by norm_num)]
    · have h1 : wrap64 (-y) = -y := by
        apply wrap64_eq_self
        · simp only [i64Min, i64Max] at *
          omega
        · simp only [i64Min, i64Max] at *
          omega
      rw [h1]

/-- Witness for C7 at concrete inputs: a saturating shift, a left shift, a
right shift, and `shr` at `y = i64Min`. -/
theorem c7_shift_spec_witness :
    shl 3 100 = 0
    ∧ toU64 (shl 3 2) = toU64 3 * 2 ^ 2 % 2 ^ 64
    ∧ toU64 (shl (-8) (-2)) = toU64 (-8) / 2 ^ 2
    ∧ shr 3 i64Min = shl 3 (-i64Min) := by
  refine ⟨?_, ?_, ?_, ?_⟩
  · exact (c7_shift_spec 3 100 (by decide) (by decide)).1 (by decide)
  · exact (c7_shift_spec 3 2 (by decide) (by decide)).2.1
      (by decide) (by decide)
  · have h := (c7_shift_spec (-8) (-2) (by decide) (by decide)).2.2.1
      (by decide) (by decide)
    simpa using h
  · exact (c7_shift_spec 3 i64Min (by decide) (by decide)).2.2.2

/-! ### Claim theorems: soft-failing arithmetic (C5) -/

lemma arithmetic_eq_none {a b : Value} (intOp : Int → Int → Int)
    (floatOp : FloatV → FloatV → FloatV)
    (hInt : ¬(a.isInteger = true ∧ b.isInteger = true))
    (hNum : a.toNumber = none ∨ b.toNumber = none) :
    arithmetic a b intOp floatOp = none := by
  unfold arithmetic
  cases a <;> cases b <;> simp_all [Value.isInteger, Value.toNumber]

lemma float_arithmetic_eq_none {a b : Value}
    (floatOp : FloatV → FloatV → FloatV)
    (hNum : a.toNumber = none ∨ b.toNumber = none) :
    float_arithmetic a b floatOp = none := by
  unfold float_arithmetic
  rcases hNum with h | h
  · rw [h]
  · rw [h]
    cases ha : a.toNumber <;> rfl

lemma bitwise_op_eq_none {a b : Value} (intOp : Int → Int → Int)
    (hInt : a.toInteger = none ∨ b.toInteger = none) :
    bitwise_op a b intOp = none := by
  unfold bitwise_op
  rcases hInt with h | h
  · rw [h]
  · rw [h]
    cases ha : a.toInteger <;> rfl

/-- C5: a binary arithmetic opcode whose operands are not both `Integer`
and do not both coerce to `Number` (and a bitwise opcode whose operands do
not both coerce losslessly to `Integer`) fails soft: no register is
written, the whole stack is left unchanged, no error is raised (the
helpers are total and return the state), and the program counter is left
pointing at the immediately following instruction; on success the result
is written and the following instruction is skipped (`pc` advances by
two from the failing opcode's slot).  The conjuncts cover all seven
`ops.rs` helpers, so every arithmetic and bitwise arm of the dispatch
loop is covered: `do_arithmetic` (Add/Sub/Mul), `do_arithmetic_with_constant`
(AddK/SubK/MulK), `do_float_arithmetic` (Pow/Div),
`do_float_arithmetic_with_constant` (PowK/DivK), `do_bitwise_op`
(BAnd/BOr/BXor/Shl/Shr), `do_bitwise_op_with_constant`
(BAndK/BOrK/BXorK), and `do_arithmetic_with_immediate` (AddI, which
fails soft exactly when `R[B]` is neither `Integer` nor `Number`, the
immediate always coercing).  One conjunct additionally states the claim
at the dispatch level for the `Add` arm: with `p` the index of the `Add`
instruction, a soft failure leaves the VM state unchanged with `pc =
p + 1`. -/
theorem c5_soft_fail_spec (st : OpsState) (constants : List Value)
    (insn : Instr) (intOp : Int → Int → Int)
    (floatOp : FloatV → FloatV → FloatV) :
    (¬((st.stack.getD insn.b .nil).isInteger = true
        ∧ (st.stack.getD insn.c .nil).isInteger = true) →
      ((st.stack.getD insn.b .nil).toNumber = none
        ∨ (st.stack.getD insn.c .nil).toNumber = none) →
      do_arithmetic st insn intOp floatOp = st)
    ∧ (¬((st.stack.getD insn.b .nil).isInteger = true
        ∧ (constants.getD insn.c .nil).isInteger = true) →
      ((st.stack.getD insn.b .nil).toNumber = none
        ∨ (constants.getD insn.c .nil).toNumber = none) →
      do_arithmetic_with_constant st constants insn intOp floatOp = st)
    ∧ (((st.stack.getD insn.b .nil).toNumber = none
        ∨ (st.stack.getD insn.c .nil).toNumber = none) →
      do_float_arithmetic st insn floatOp = st)
    ∧ (((st.stack.getD insn.b .nil).toInteger = none
        ∨ (st.stack.getD insn.c .nil).toInteger = none) →
      do_bitwise_op st insn intOp = st)
    ∧ (∀ r, arithmetic (st.stack.getD insn.b .nil)
          (st.stack.getD insn.c .nil) intOp floatOp = some r →
      do_arithmetic st insn intOp floatOp
        = ⟨st.stack.set insn.a r, st.pc + 1⟩)
    ∧ (∀ (fs : FloatSem) (store : List ProtoV) (vm : VmState)
          (frame : Frame) (closure : LuaClosureV) (p : Nat),
        insn.op = .Add →
        (¬(((vm.stack.drop (frame.bottom + 1)).getD insn.b .nil).isInteger = true
            ∧ ((vm.stack.drop (frame.bottom + 1)).getD insn.c .nil).isInteger = true)) →
        (((vm.stack.drop (frame.bottom + 1)).getD insn.b .nil).toNumber = none
          ∨ ((vm.stack.drop (frame.bottom + 1)).getD insn.c .nil).toNumber = none) →
        dispatch fs store vm frame closure (p + 1) insn = .ok vm (p + 1))
    ∧ ((st.stack.getD insn.b .nil).toNumber = none →
      do_arithmetic_with_immediate st insn intOp floatOp = st)
    ∧ (((st.stack.getD insn.b .nil).toNumber = none
        ∨ (constants.getD insn.c .nil).toNumber = none) →
      do_float_arithmetic_with_constant st constants insn floatOp = st)
    ∧ (((st.stack.getD insn.b .nil).toInteger = none
        ∨ (constants.getD insn.c .nil).toInteger = none) →
      do_bitwise_op_with_constant st constants insn intOp = st)
    ∧ (∀ r, arithmetic (st.stack.getD insn.b .nil)
          (constants.getD insn.c .nil) intOp floatOp = some r →
      do_arithmetic_with_constant st constants insn intOp floatOp
        = ⟨st.stack.set insn.a r, st.pc + 1⟩)
    ∧ (∀ r, float_arithmetic (st.stack.getD insn.b .nil)
          (st.stack.getD insn.c .nil) floatOp = some r →
      do_float_arithmetic st insn floatOp
        = ⟨st.stack.set insn.a r, st.pc + 1⟩)
    ∧ (∀ r, bitwise_op (st.stack.getD insn.b .nil)
          (st.stack.getD insn.c .nil) intOp = some r →
      do_bitwise_op st insn intOp = ⟨st.stack.set insn.a r, st.pc + 1⟩)
    ∧ (∀ x, st.stack.getD insn.b .nil = .integer x →
      do_arithmetic_with_immediate st insn intOp floatOp
        = ⟨st.stack.set insn.a (.integer (intOp x insn.sc)), st.pc + 1⟩)
    ∧ (∀ x, st.stack.getD insn.b .nil = .number x →
      do_arithmetic_with_immediate st insn intOp floatOp
        = ⟨st.stack.set insn.a (.number (floatOp x (.fin (insn.sc : ℚ)))),
           st.pc + 1⟩) := by
  refine ⟨?_, ?_, ?_, ?_, ?_, ?_, ?_, ?_, ?_, ?_, ?_, ?_, ?_, ?_⟩
  · intro hInt hNum
    unfold do_arithmetic
    rw [arithmetic_eq_none intOp floatOp hInt hNum]
  · intro hInt hNum
    unfold do_arithmetic_with_constant
    rw [arithmetic_eq_none intOp floatOp hInt hNum]
  · intro hNum
    unfold do_float_arithmetic
    rw [float_arithmetic_eq_none floatOp hNum]
  · intro hInt
    unfold do_bitwise_op
    rw [bitwise_op_eq_none intOp hInt]
  · intro r h
    unfold do_arithmetic
    rw [h]
  · intro fs store vm frame closure p hop hInt hNum
    unfold dispatch
    rw [hop]
    dsimp only
    unfold opsArm do_arithmetic
    dsimp only
    rw [arithmetic_eq_none _ _ hInt hNum]
    simp [List.take_append_drop]
  · intro h
    unfold do_arithmetic_with_immediate
    cases hv : st.stack.getD insn.b .nil <;> rw [hv] at h <;>
      first
        | rfl
        | simp [Value.toNumber] at h
  · intro h
    unfold do_float_arithmetic_with_constant
    rcases h with h | h
    · rw [h]
    · rw [h]
      cases hh : (st.stack.getD insn.b .nil).toNumber <;> rfl
  · intro h
    unfold do_bitwise_op_with_constant
    rw [bitwise_op_eq_none intOp h]
  · intro r h
    unfold do_arithmetic_with_constant
    rw [h]
  · intro r h
    unfold do_float_arithmetic
    rw [h]
  · intro r h
    unfold do_bitwise_op
    rw [h]
  · intro x hv
    unfold do_arithmetic_with_immediate
    rw [hv]
  · intro x hv
    unfold do_arithmetic_with_immediate
    rw [hv]

/-- Witness for C5: an `Add` with a table operand leaves the state (a
one-slot stack and `pc = 4`) untouched; with two integer operands it
writes the sum and advances `pc`; an `AddI` whose `R[B]` is a table also
fails soft. -/
theorem c5_soft_fail_spec_witness :
    do_arithmetic ⟨[Value.table 0, Value.integer 1], 4⟩
        ⟨.Add, 0, 0, 1, false, 0, 0, 0, 0⟩ (fun x y => x + y) (fun _ _ => .nan)
      = ⟨[Value.table 0, Value.integer 1], 4⟩
    ∧ do_arithmetic ⟨[Value.integer 2, Value.integer 3], 4⟩
        ⟨.Add, 0, 0, 1, false, 0, 0, 0, 0⟩ (fun x y => x + y) (fun _ _ => .nan)
      = ⟨[Value.integer 5, Value.integer 3], 5⟩
    ∧ do_arithmetic_with_immediate ⟨[Value.table 0], 4⟩
        ⟨.AddI, 0, 0, 0, false, 0, 0, 0, 7⟩ (fun x y => x + y)
        (fun _ _ => .nan)
      = ⟨[Value.table 0], 4⟩ := by
  refine ⟨?_, ?_, ?_⟩
  · exact (c5_soft_fail_spec ⟨[Value.table 0, Value.integer 1], 4⟩ []
      ⟨.Add, 0, 0, 1, false, 0, 0, 0, 0⟩ (fun x y => x + y)
      (fun _ _ => .nan)).1 (by decide) (Or.inl rfl)
  · exact (c5_soft_fail_spec ⟨[Value.integer 2, Value.integer 3], 4⟩ []
      ⟨.Add, 0, 0, 1, false, 0, 0, 0, 0⟩ (fun x y => x + y)
      (fun _ _ => .nan)).2.2.2.2.1 (Value.integer 5) rfl
  · exact (c5_soft_fail_spec ⟨[Value.table 0], 4⟩ []
      ⟨.AddI, 0, 0, 0, false, 0, 0, 0, 7⟩ (fun x y => x + y)
      (fun _ _ => .nan)).2.2.2.2.2.2.1 rfl

/-! ### Claim theorems: ordered comparison (C6) -/

lemma bytesLt_iff_lex : ∀ s t : List Nat,
    bytesLt s t = true ↔ List.Lex (· < ·) s t
  | [], [] => by simp [bytesLt]
  | [], b :: bs => by
    simp only [bytesLt]
    simp only [true_iff]
    exact List.Lex.nil
  | a :: as, [] => by
    simp [bytesLt]
  | a :: as, b :: bs => by
    unfold bytesLt
    rcases lt_trichotomy a b with h | h | h
    · simp [h]
      exact List.Lex.rel h
    · subst h
      rw [if_neg (by omega), if_neg (by omega)]
      rw [bytesLt_iff_lex as bs]
      constructor
      · exact List.Lex.cons
      · intro hl
        cases hl with
        | cons h => exact h
        | rel h => omega
    · rw [if_neg (by omega), if_pos h]
      simp
      intro hl
      cases hl with
      | cons _ => omega
      | rel h2 => omega

lemma bytesLe_iff_not_lex : ∀ s t : List Nat,
    bytesLe s t = true ↔ ¬ List.Lex (· < ·) t s
  | [], t => by
    simp [bytesLe]
  | a :: as, [] => by
    simp [bytesLe]
    exact List.Lex.nil
  | a :: as, b :: bs => by
    unfold bytesLe
    rcases lt_trichotomy a b with h | h | h
    · rw [if_pos h]
      simp
      intro hl
      cases hl with
      | cons _ => omega
      | rel h2 => omega
    · subst h
      rw [if_neg (by omega), if_neg (by omega)]
      rw [bytesLe_iff_not_lex as bs]
      constructor
      · intro hn hl
        cases hl with
        | cons h2 => exact hn h2
        | rel h2 => omega
      · intro hn h2
        exact hn (List.Lex.cons h2)
    · rw [if_neg (by omega), if_pos h]
      simp
      exact List.Lex.rel h

/-- C6 (amended): the mixed `Integer`/`Number` arms of `lt` and `le`
compare by converting the float operand to its ceil or floor integer when
that integer is representable in 64 bits and otherwise decide by comparing
the float against `0`; whenever either operand is a NaN `Number` and the
other operand is an `Integer` or a `Number`, both `lt` and `le` return
`some false`; and `String` pairs compare by lexicographic byte order.
(The original claim asserted the NaN clause for every pair of values; see
the counterexample.  The final conjunct records what the code does on the
remaining pairs: a NaN paired with any value that does not coerce to
`Number`, in either order, falls to the catch-all arm and returns `none`
— the caller raises a type error.) -/
theorem c6_compare_spec :
    (∀ (a : Int) (x : FloatV),
      lt (.integer a) (.number x)
        = some (if numberIsValidInteger x.ceil
                then decide (a < x.ceil.toIntVal)
                else FloatV.flt (.fin 0) x)
      ∧ lt (.number x) (.integer a)
        = some (if numberIsValidInteger x.floor
                then decide (x.floor.toIntVal < a)
                else x.flt (.fin 0))
      ∧ le (.integer a) (.number x)
        = some (if numberIsValidInteger x.floor
                then decide (a ≤ x.floor.toIntVal)
                else FloatV.flt (.fin 0) x)
      ∧ le (.number x) (.integer a)
        = some (if numberIsValidInteger x.ceil
                then decide (x.ceil.toIntVal ≤ a)
                else x.flt (.fin 0)))
    ∧ (∀ (y : FloatV) (n : Int),
      lt (.number .nan) (.number y) = some false
      ∧ lt (.number y) (.number .nan) = some false
      ∧ le (.number .nan) (.number y) = some false
      ∧ le (.number y) (.number .nan) = some false
      ∧ lt (.integer n) (.number .nan) = some false
      ∧ lt (.number .nan) (.integer n) = some false
      ∧ le (.integer n) (.number .nan) = some false
      ∧ le (.number .nan) (.integer n) = some false)
    ∧ (∀ s t : List Nat,
      lt (.str s) (.str t) = some (bytesLt s t)
      ∧ le (.str s) (.str t) = some (bytesLe s t)
      ∧ (bytesLt s t = true ↔ List.Lex (· < ·) s t)
      ∧ (bytesLe s t = true ↔ ¬ List.Lex (· < ·) t s))
    ∧ (∀ v : Value, v.toNumber = none →
      lt (.number .nan) v = none
      ∧ lt v (.number .nan) = none
      ∧ le (.number .nan) v = none
      ∧ le v (.number .nan) = none) := by
  refine ⟨fun a x => ⟨rfl, rfl, rfl, rfl⟩, fun y n => ?_, fun s t =>
    ⟨rfl, rfl, bytesLt_iff_lex s t, bytesLe_iff_not_lex s t⟩, fun v hv => ?_⟩
  · refine ⟨?_, ?_, ?_, ?_, rfl, rfl, rfl, rfl⟩ <;> cases y <;> rfl
  · cases v <;>
      first
        | exact ⟨rfl, rfl, rfl, rfl⟩
        | simp [Value.toNumber] at hv

/-- Witness for C6 at a concrete input: a NaN compared against a table
(which does not coerce to `Number`) yields `none` in both orders. -/
theorem c6_compare_spec_witness :
    lt (.number .nan) (Value.table 0) = none
    ∧ le (Value.table 0) (.number .nan) = none := by
  have h := c6_compare_spec.2.2.2 (Value.table 0) rfl
  exact ⟨h.1, h.2.2.2⟩

/-- C6 counterexample: the unamended claim says `lt` returns false on
every pair containing a NaN `Number`; at the concrete pair
`(Number NaN, Nil)` both `lt` and `le` instead return `none` (the caller
raises a type error). -/
theorem c6_nan_nil_counterexample :
    lt (.number .nan) .nil = none
    ∧ ¬ lt (.number .nan) .nil = some false
    ∧ le (.number .nan) .nil = none
    ∧ ¬ le (.number .nan) .nil = some false := by
  exact ⟨rfl, by decide, rfl, by decide⟩

/-! ### Claim theorems: Return (C1) and Closure upvalue sharing (C2) -/

/-- C1 (code evaluated at the failing input): a `Return` with `A = 0`,
`B = 3` (two declared results) and `k` clear, in a frame with
`bottom = 0` over the stack `[closure, 10, 20, 30]`, produces the stack
`[10, 10]` — the copy loop `stack[bottom + i] = stack[bottom + 1 + A]`
reads the same source slot for every `i` — instead of the declared
results `[10, 20]`; the truncation to `bottom + num_results` and the
frame pop do happen. -/
theorem c1_return_repeats_one_slot :
    (execReturn
        ⟨[.luaClosure ⟨0, []⟩, .integer 10, .integer 20, .integer 30],
         [⟨0, 5⟩], [], [], 0⟩
        ⟨0, 5⟩ ⟨.Return, 0, 3, 0, false, 0, 0, 0, 0⟩).stack
      = [.integer 10, .integer 10]
    ∧ (execReturn
        ⟨[.luaClosure ⟨0, []⟩, .integer 10, .integer 20, .integer 30],
         [⟨0, 5⟩], [], [], 0⟩
        ⟨0, 5⟩ ⟨.Return, 0, 3, 0, false, 0, 0, 0, 0⟩).stack.length = 0 + 2
    ∧ (execReturn
        ⟨[.luaClosure ⟨0, []⟩, .integer 10, .integer 20, .integer 30],
         [⟨0, 5⟩], [], [], 0⟩
        ⟨0, 5⟩ ⟨.Return, 0, 3, 0, false, 0, 0, 0, 0⟩).frames = []
    ∧ ¬ (execReturn
        ⟨[.luaClosure ⟨0, []⟩, .integer 10, .integer 20, .integer 30],
         [⟨0, 5⟩], [], [], 0⟩
        ⟨0, 5⟩ ⟨.Return, 0, 3, 0, false, 0, 0, 0, 0⟩).stack
      = [.integer 10, .integer 20] := by
  decide

lemma lookupUv_resolveUpvalue {bottom : Nat} {parentUps : List Nat}
    {ctx : ClosCtx} {d : UpvalDesc} {i c : Nat}
    (h : lookupUv ctx.openUpvalues i = some c) :
    lookupUv (resolveUpvalue bottom parentUps ctx d).2.openUpvalues i
      = some c := by
  unfold resolveUpvalue
  by_cases hd : d.inStack = true
  · simp only [hd, if_true]
    cases hl : lookupUv ctx.openUpvalues (bottom + 1 + d.index) with
    | some cell => exact h
    | none =>
      by_cases he : bottom + 1 + d.index = i
      · rw [he] at hl
        rw [hl] at h
        exact absurd h (by simp)
      · simp only [lookupUv, he, if_neg he]
        exact h
  · simp only [Bool.not_eq_true] at hd
    simp only [hd, Bool.false_eq_true, if_false]
    exact h

lemma resolveUpvalue_lookup {bottom : Nat} {parentUps : List Nat}
    {ctx : ClosCtx} {d : UpvalDesc} (hd : d.inStack = true) :
    lookupUv (resolveUpvalue bottom parentUps ctx d).2.openUpvalues
        (bottom + 1 + d.index)
      = some (resolveUpvalue bottom parentUps ctx d).1 := by
  unfold resolveUpvalue
  simp only [hd, if_true]
  cases hl : lookupUv ctx.openUpvalues (bottom + 1 + d.index) with
  | some cell => exact hl
  | none => simp [lookupUv]

lemma resolveUpvalue_of_lookup {bottom : Nat} {parentUps : List Nat}
    {ctx : ClosCtx} {d : UpvalDesc} {c : Nat} (hd : d.inStack = true)
    (h : lookupUv ctx.openUpvalues (bottom + 1 + d.index) = some c) :
    resolveUpvalue bottom parentUps ctx d = (c, ctx) := by
  unfold resolveUpvalue
  simp only [hd, if_true, h]

lemma resolveUpvalue_of_none {bottom : Nat} {parentUps : List Nat}
    {ctx : ClosCtx} {d : UpvalDesc} (hd : d.inStack = true)
    (h : lookupUv ctx.openUpvalues (bottom + 1 + d.index) = none) :
    resolveUpvalue bottom parentUps ctx d
      = (ctx.cells.length,
         ⟨(bottom + 1 + d.index, ctx.cells.length) :: ctx.openUpvalues,
          ctx.cells ++ [UpvalueV.opened (bottom + 1 + d.index)]⟩) := by
  unfold resolveUpvalue
  simp only [hd, if_true, h]

lemma lookupUv_resolveUpvalues {bottom : Nat} {parentUps : List Nat}
    {i c : Nat} : ∀ (ds : List UpvalDesc) (ctx : ClosCtx),
    lookupUv ctx.openUpvalues i = some c →
    lookupUv (resolveUpvalues bottom parentUps ctx ds).2.openUpvalues i
      = some c
  | [], ctx, h => h
  | d :: ds, ctx, h => by
    unfold resolveUpvalues
    exact lookupUv_resolveUpvalues ds _ (lookupUv_resolveUpvalue h)

lemma resolveUpvalues_lookup_getD {bottom : Nat} {parentUps : List Nat} :
    ∀ (ds : List UpvalDesc) (ctx : ClosCtx) (k : Nat),
    k < ds.length → (ds.getD k ⟨false, 0⟩).inStack = true →
    lookupUv (resolveUpvalues bottom parentUps ctx ds).2.openUpvalues
        (bottom + 1 + (ds.getD k ⟨false, 0⟩).index)
      = some ((resolveUpvalues bottom parentUps ctx ds).1.getD k 0)
  | [], _, k, hk, _ => absurd hk (by simp)
  | d :: ds, ctx, 0, _, hd => by
    unfold resolveUpvalues
    simp only [List.getD_cons_zero] at hd ⊢
    exact lookupUv_resolveUpvalues ds _ (resolveUpvalue_lookup hd)
  | d :: ds, ctx, k + 1, hk, hd => by
    unfold resolveUpvalues
    simp only [List.getD_cons_succ] at hd ⊢
    exact resolveUpvalues_lookup_getD ds _ k (by simpa using hk) hd

lemma resolveUpvalues_getD_of_lookup {bottom : Nat} {parentUps : List Nat}
    {i c : Nat} : ∀ (ds : List UpvalDesc) (ctx : ClosCtx) (k : Nat),
    lookupUv ctx.openUpvalues i = some c →
    k < ds.length → (ds.getD k ⟨false, 0⟩).inStack = true →
    bottom + 1 + (ds.getD k ⟨false, 0⟩).index = i →
    (resolveUpvalues bottom parentUps ctx ds).1.getD k 0 = c
  | [], _, k, _, hk, _, _ => absurd hk (by simp)
  | d :: ds, ctx, 0, h, _, hd, hi => by
    unfold resolveUpvalues
    simp only [List.getD_cons_zero] at hd hi ⊢
    have hr := @resolveUpvalue_of_lookup bottom parentUps ctx d c hd (hi ▸ h)
    simp [hr]
  | d :: ds, ctx, k + 1, h, hk, hd, hi => by
    unfold resolveUpvalues
    simp only [List.getD_cons_succ] at hd hi ⊢
    exact resolveUpvalues_getD_of_lookup ds _ k
      (lookupUv_resolveUpvalue h) (by simpa using hk) hd hi

lemma resolveUpvalues_getD_parent {bottom : Nat} {parentUps : List Nat} :
    ∀ (ds : List UpvalDesc) (ctx : ClosCtx) (k : Nat),
    k < ds.length → (ds.getD k ⟨false, 0⟩).inStack = false →
    (resolveUpvalues bottom parentUps ctx ds).1.getD k 0
      = parentUps.getD (ds.getD k ⟨false, 0⟩).index 0
  | [], _, k, hk, _ => absurd hk (by simp)
  | d :: ds, ctx, 0, _, hd => by
    unfold resolveUpvalues
    simp only [List.getD_cons_zero] at hd ⊢
    unfold resolveUpvalue
    simp [hd]
  | d :: ds, ctx, k + 1, hk, hd => by
    unfold resolveUpvalues
    simp only [List.getD_cons_succ] at hd ⊢
    exact resolveUpvalues_getD_parent ds _ k (by simpa using hk) hd

/-- C2: upvalue-cell sharing of the `Closure` arm.  First conjunct: two
`in_stack` descriptors of one `Closure` instruction with the same index
resolve to the identical cell (cell ids are heap identity).  Second
conjunct: an `in_stack` descriptor of a later `Closure` instruction whose
stack key `bottom + 1 + index` equals that of an earlier one — the cell
still being open, nothing having removed it from the map — resolves to
the same cell the earlier instruction produced.  Third conjunct: a
descriptor with `in_stack` clear yields the parent closure's cell at its
index.  Fourth conjunct: resolution reuses the mapped cell when the key
is present and creates a fresh `Open (bottom + 1 + index)` cell, recorded
in the map, only when it is not. -/
theorem c2_closure_upvalue_sharing (bottom bottom' : Nat)
    (parentUps parentUps' : List Nat) (ctx : ClosCtx)
    (ds ds' : List UpvalDesc) (i j : Nat) :
    (i < ds.length → j < ds.length →
      (ds.getD i ⟨false, 0⟩).inStack = true →
      (ds.getD j ⟨false, 0⟩).inStack = true →
      (ds.getD i ⟨false, 0⟩).index = (ds.getD j ⟨false, 0⟩).index →
      (resolveUpvalues bottom parentUps ctx ds).1.getD i 0
        = (resolveUpvalues bottom parentUps ctx ds).1.getD j 0)
    ∧ (i < ds.length → j < ds'.length →
      (ds.getD i ⟨false, 0⟩).inStack = true →
      (ds'.getD j ⟨false, 0⟩).inStack = true →
      bottom' + 1 + (ds'.getD j ⟨false, 0⟩).index
        = bottom + 1 + (ds.getD i ⟨false, 0⟩).index →
      (resolveUpvalues bottom' parentUps'
          (resolveUpvalues bottom parentUps ctx ds).2 ds').1.getD j 0
        = (resolveUpvalues bottom parentUps ctx ds).1.getD i 0)
    ∧ (j < ds.length → (ds.getD j ⟨false, 0⟩).inStack = false →
      (resolveUpvalues bottom parentUps ctx ds).1.getD j 0
        = parentUps.getD (ds.getD j ⟨false, 0⟩).index 0)
    ∧ (∀ d : UpvalDesc, d.inStack = true →
      (∀ c, lookupUv ctx.openUpvalues (bottom + 1 + d.index) = some c →
        resolveUpvalue bottom parentUps ctx d = (c, ctx))
      ∧ (lookupUv ctx.openUpvalues (bottom + 1 + d.index) = none →
        resolveUpvalue bottom parentUps ctx d
          = (ctx.cells.length,
             ⟨(bottom + 1 + d.index, ctx.cells.length) :: ctx.openUpvalues,
              ctx.cells ++ [UpvalueV.opened (bottom + 1 + d.index)]⟩))) := by
  refine ⟨?_, ?_, ?_, ?_⟩
  · intro hi hj hdi hdj hidx
    have h1 := @resolveUpvalues_lookup_getD bottom parentUps ds ctx i hi hdi
    have h2 := @resolveUpvalues_lookup_getD bottom parentUps ds ctx j hj hdj
    rw [hidx] at h1
    exact Option.some.inj (h1.symm.trans h2)
  · intro hi hj hdi hdj hkey
    have h1 := @resolveUpvalues_lookup_getD bottom parentUps ds ctx i hi hdi
    exact resolveUpvalues_getD_of_lookup ds' _ j h1 hj hdj hkey
  · intro hj hdj
    exact resolveUpvalues_getD_parent ds ctx j hj hdj
  · intro d hd
    exact ⟨fun c hc => resolveUpvalue_of_lookup hd hc,
           fun hn => resolveUpvalue_of_none hd hn⟩

/-- Witness for C2 at a concrete input: in one `Closure` instruction with
descriptors `[{in_stack, 0}, {in_stack, 0}, {parent, 1}]`, descriptors 0
and 1 share one cell; a second `Closure` instruction capturing the same
stack slot receives that same cell; the third descriptor inherits parent
cell `9`; and the first resolution freshly allocated cell `0` as
`Open 1`. -/
theorem c2_closure_upvalue_sharing_witness :
    (resolveUpvalues 0 [7, 9] ⟨[], []⟩
        [⟨true, 0⟩, ⟨true, 0⟩, ⟨false, 1⟩]).1.getD 0 0
      = (resolveUpvalues 0 [7, 9] ⟨[], []⟩
          [⟨true, 0⟩, ⟨true, 0⟩, ⟨false, 1⟩]).1.getD 1 0
    ∧ (resolveUpvalues 0 [7]
        (resolveUpvalues 0 [7, 9] ⟨[], []⟩
          [⟨true, 0⟩, ⟨true, 0⟩, ⟨false, 1⟩]).2 [⟨true, 0⟩]).1.getD 0 0
      = (resolveUpvalues 0 [7, 9] ⟨[], []⟩
          [⟨true, 0⟩, ⟨true, 0⟩, ⟨false, 1⟩]).1.getD 0 0
    ∧ (resolveUpvalues 0 [7, 9] ⟨[], []⟩
        [⟨true, 0⟩, ⟨true, 0⟩, ⟨false, 1⟩]).1.getD 2 0 = 9
    ∧ resolveUpvalue 0 [7, 9] ⟨[], []⟩ ⟨true, 0⟩
      = (0, ⟨[(1, 0)], [UpvalueV.opened 1]⟩) := by
  refine ⟨?_, ?_, ?_, ?_⟩
  · exact (c2_closure_upvalue_sharing 0 0 [7, 9] [7] ⟨[], []⟩
      [⟨true, 0⟩, ⟨true, 0⟩, ⟨false, 1⟩] [⟨true, 0⟩] 0 1).1
      (by decide) (by decide) (by decide) (by decide) (by decide)
  · exact (c2_closure_upvalue_sharing 0 0 [7, 9] [7] ⟨[], []⟩
      [⟨true, 0⟩, ⟨true, 0⟩, ⟨false, 1⟩] [⟨true, 0⟩] 0 0).2.1
      (by decide) (by decide) (by decide) (by decide) (by decide)
  · exact ((c2_closure_upvalue_sharing 0 0 [7, 9] [7] ⟨[], []⟩
      [⟨true, 0⟩, ⟨true, 0⟩, ⟨false, 1⟩] [⟨true, 0⟩] 0 2).2.2.1
      (by decide) (by decide)).trans (by decide)
  · exact ((c2_closure_upvalue_sharing 0 0 [7, 9] [7] ⟨[], []⟩
      [⟨true, 0⟩, ⟨true, 0⟩, ⟨false, 1⟩] [⟨true, 0⟩] 0 0).2.2.2
      ⟨true, 0⟩ rfl).2 rfl

/-! ### Claim theorems: panicking opcodes (C9) and execute entry (C10) -/

/-- C9: the dispatch loop is not total over the opcode set.  Every
instruction whose opcode is in `panicOps` (`SetUpval`, `ModK`, `IDivK`,
`ShrI`, `ShlI`, `Mod`, `IDiv`, `MmBin`, `MmBinI`, `MmBinK`, `Len`,
`Close`, `Tbc`, `TestSet`, `TailCall`, `TForPrep`, `TForCall`,
`TForLoop`, `VarArg`) panics (`unimplemented!`) in every state, and
`ForLoop`, `ForPrep`, `Unm` and `BNot` panic whenever their operands are
not of the handled numeric shape, instead of producing a value or a
runtime error: `ForPrep` when any of init, limit or step is not an
`Integer`; `ForLoop` when the step is not an `Integer`
(`unimplemented!`), when the counter is not an `Integer` (the `unwrap`),
or when the counter is positive and the index is not an `Integer` (the
inner `unwrap`); `Unm` when the operand is neither `Integer` nor
`Number`; `BNot` when it is not an `Integer`. -/
theorem c9_dispatch_panics (fs : FloatSem) (store : List ProtoV)
    (vm : VmState) (frame : Frame) (closure : LuaClosureV) (pc : Nat)
    (insn : Instr) :
    (insn.op ∈ panicOps →
      (dispatch fs store vm frame closure pc insn).isPanicked = true)
    ∧ (insn.op = .ForLoop →
      (readReg vm frame (insn.a + 2)).asInteger = none →
      (dispatch fs store vm frame closure pc insn).isPanicked = true)
    ∧ (insn.op = .ForLoop → ∀ step,
      (readReg vm frame (insn.a + 2)).asInteger = some step →
      (readReg vm frame (insn.a + 1)).asInteger = none →
      (dispatch fs store vm frame closure pc insn).isPanicked = true)
    ∧ (insn.op = .ForPrep →
      (readReg vm frame insn.a).asInteger = none →
      (dispatch fs store vm frame closure pc insn).isPanicked = true)
    ∧ (insn.op = .Unm →
      (readReg vm frame insn.b).asInteger = none →
      (readReg vm frame insn.b).asNumber = none →
      (dispatch fs store vm frame closure pc insn).isPanicked = true)
    ∧ (insn.op = .BNot →
      (readReg vm frame insn.b).asInteger = none →
      (dispatch fs store vm frame closure pc insn).isPanicked = true)
    ∧ (insn.op = .ForPrep →
      ((readReg vm frame insn.a).asInteger = none
        ∨ (readReg vm frame (insn.a + 1)).asInteger = none
        ∨ (readReg vm frame (insn.a + 2)).asInteger = none) →
      (dispatch fs store vm frame closure pc insn).isPanicked = true)
    ∧ (insn.op = .ForLoop → ∀ step count,
      (readReg vm frame (insn.a + 2)).asInteger = some step →
      (readReg vm frame (insn.a + 1)).asInteger = some count →
      0 < count →
      (readReg vm frame insn.a).asInteger = none →
      (dispatch fs store vm frame closure pc insn).isPanicked = true) := by
  rcases insn with ⟨op, a, b, c, k, bx, sbx, sj, sc⟩
  refine ⟨?_, ?_, ?_, ?_, ?_, ?_, ?_, ?_⟩
  · intro h
    fin_cases h <;> rfl
  · intro hop hnone
    dsimp only at hop hnone
    subst hop
    unfold dispatch
    dsimp only
    rw [hnone]
    rfl
  · intro hop step hstep hnone
    dsimp only at hop hstep hnone
    subst hop
    unfold dispatch
    dsimp only
    rw [hstep, hnone]
    rfl
  · intro hop hnone
    dsimp only at hop hnone
    subst hop
    unfold dispatch
    dsimp only
    rw [hnone]
    rfl
  · intro hop hint hnum
    dsimp only at hop hint hnum
    subst hop
    unfold dispatch
    dsimp only
    rw [hint, hnum]
    rfl
  · intro hop hint
    dsimp only at hop hint
    subst hop
    unfold dispatch
    dsimp only
    rw [hint]
    rfl
  · intro hop hd
    dsimp only at hop hd
    subst hop
    unfold dispatch
    dsimp only
    rcases h1 : (readReg vm frame a).asInteger with _ | i1 <;>
      rcases h2 : (readReg vm frame (a + 1)).asInteger with _ | i2 <;>
        rcases h3 : (readReg vm frame (a + 2)).asInteger with _ | i3 <;>
          first
            | rfl
            | (rcases hd with h | h | h <;> simp_all)
  · intro hop step count hstep hcount hpos hidx
    dsimp only at hop hstep hcount hpos hidx
    subst hop
    unfold dispatch
    dsimp only
    rw [hstep, hcount]
    dsimp only
    rw [if_pos hpos, hidx]
    rfl

/-- Witness for C9 at concrete inputs: a `Mod` instruction panics in a
small state; a `ForLoop` whose step register holds `nil` panics; a
`ForPrep` whose limit register holds `nil` panics; and a `ForLoop` with
integer step and positive integer counter but a `nil` index panics. -/
theorem c9_dispatch_panics_witness :
    (dispatch ⟨fun _ _ => .nan, fun _ _ => .nan, fun _ _ => .nan,
        fun _ _ => .nan, fun _ _ => .nan⟩ [] ⟨[], [], [], [], 0⟩ ⟨0, 0⟩
        ⟨0, []⟩ 1 ⟨.Mod, 0, 1, 2, false, 0, 0, 0, 0⟩).isPanicked = true
    ∧ (dispatch ⟨fun _ _ => .nan, fun _ _ => .nan, fun _ _ => .nan,
        fun _ _ => .nan, fun _ _ => .nan⟩ [] ⟨[], [], [], [], 0⟩ ⟨0, 0⟩
        ⟨0, []⟩ 1 ⟨.ForLoop, 0, 0, 0, false, 0, 0, 0, 0⟩).isPanicked
      = true
    ∧ (dispatch ⟨fun _ _ => .nan, fun _ _ => .nan, fun _ _ => .nan,
        fun _ _ => .nan, fun _ _ => .nan⟩ []
        ⟨[.nil, .integer 1, .nil, .integer 1], [], [], [], 0⟩ ⟨0, 0⟩
        ⟨0, []⟩ 1 ⟨.ForPrep, 0, 0, 0, false, 0, 0, 0, 0⟩).isPanicked
      = true
    ∧ (dispatch ⟨fun _ _ => .nan, fun _ _ => .nan, fun _ _ => .nan,
        fun _ _ => .nan, fun _ _ => .nan⟩ []
        ⟨[.nil, .nil, .integer 2, .integer 1], [], [], [], 0⟩ ⟨0, 0⟩
        ⟨0, []⟩ 1 ⟨.ForLoop, 0, 0, 0, false, 0, 0, 0, 0⟩).isPanicked
      = true := by
  refine ⟨?_, ?_, ?_, ?_⟩
  · exact (c9_dispatch_panics ⟨fun _ _ => .nan, fun _ _ => .nan,
      fun _ _ => .nan, fun _ _ => .nan, fun _ _ => .nan⟩ []
      ⟨[], [], [], [], 0⟩ ⟨0, 0⟩ ⟨0, []⟩ 1
      ⟨.Mod, 0, 1, 2, false, 0, 0, 0, 0⟩).1 (by decide)
  · exact (c9_dispatch_panics ⟨fun _ _ => .nan, fun _ _ => .nan,
      fun _ _ => .nan, fun _ _ => .nan, fun _ _ => .nan⟩ []
      ⟨[], [], [], [], 0⟩ ⟨0, 0⟩ ⟨0, []⟩ 1
      ⟨.ForLoop, 0, 0, 0, false, 0, 0, 0, 0⟩).2.1 rfl (by decide)
  · exact (c9_dispatch_panics ⟨fun _ _ => .nan, fun _ _ => .nan,
      fun _ _ => .nan, fun _ _ => .nan, fun _ _ => .nan⟩ []
      ⟨[.nil, .integer 1, .nil, .integer 1], [], [], [], 0⟩ ⟨0, 0⟩
      ⟨0, []⟩ 1 ⟨.ForPrep, 0, 0, 0, false, 0, 0, 0, 0⟩).2.2.2.2.2.2.1
      rfl (Or.inr (Or.inl (by decide)))
  · exact (c9_dispatch_panics ⟨fun _ _ => .nan, fun _ _ => .nan,
      fun _ _ => .nan, fun _ _ => .nan, fun _ _ => .nan⟩ []
      ⟨[.nil, .nil, .integer 2, .integer 1], [], [], [], 0⟩ ⟨0, 0⟩
      ⟨0, []⟩ 1 ⟨.ForLoop, 0, 0, 0, false, 0, 0, 0, 0⟩).2.2.2.2.2.2.2
      rfl 1 2 (by decide) (by decide) (by decide) (by decide)

/-- C10: `Vm::execute` requires the closure it receives to have an empty
upvalue list — a nonempty list fails its `assert!` (modelled as `none`) —
and otherwise installs a freshly allocated cell holding the global table
as the closure's sole (index-0) upvalue, pushes the closure at
`bottom = stack.len()`, and pushes the frame `{bottom, pc: 0}`. -/
theorem c10_execute_entry (vm : VmState) (closure : LuaClosureV) :
    (¬ closure.upvalues = [] → executeEntry vm closure = none)
    ∧ (closure.upvalues = [] →
      executeEntry vm closure
        = some { vm with
            cells := vm.cells
              ++ [UpvalueV.closed (Value.table vm.globalTable)],
            stack := vm.stack
              ++ [Value.luaClosure ⟨closure.protoId, [vm.cells.length]⟩],
            frames := vm.frames ++ [⟨vm.stack.length, 0⟩] }) := by
  constructor
  · intro h
    unfold executeEntry
    rw [if_neg h]
  · intro h
    unfold executeEntry
    rw [if_pos h]

/-- Witness for C10 at concrete inputs: a root closure with a
pre-populated upvalue list makes `execute` fail its assertion, and one
with an empty list is pushed with the global table installed as its sole
upvalue. -/
theorem c10_execute_entry_witness :
    executeEntry ⟨[], [], [], [], 3⟩ ⟨5, [0]⟩ = none
    ∧ executeEntry ⟨[], [], [], [], 3⟩ ⟨5, []⟩
      = some ⟨[Value.luaClosure ⟨5, [0]⟩], [⟨0, 0⟩], [],
              [UpvalueV.closed (Value.table 3)], 3⟩ := by
  constructor
  · exact (c10_execute_entry ⟨[], [], [], [], 3⟩ ⟨5, [0]⟩).1 (by decide)
  · exact ((c10_execute_entry ⟨[], [], [], [], 3⟩ ⟨5, []⟩).2 rfl).trans
      (by decide)

end Mochi
